import Mathlib

/-!
Verification development for the eris fixed-step phase scheduler
(packages/eris/src/eris: Engine, World, phases, system registry).

Numbers are modelled by rationals; JavaScript numbers that may be NaN or
infinite (validation inputs) are modelled by the JsNum type.  System
callbacks are modelled by an event trace: every invocation of a phase
records one event per registered system of that phase, carrying the dt
argument and the SystemContext the scheduler passes.  The keyed store of
World is an abstract state component threaded unchanged by the scheduler
itself (only system callbacks write it, and those are traced, not run).
The name comparison of sortSystems (localeCompare) is modelled by the
lexicographic order on strings.
-/

namespace Eris

/-- The six phases, in the fixed order of PHASE_ORDER. -/
inductive Phase where
  | preFrame
  | fixed
  | postPhysicsFixed
  | update
  | late
  | renderApply
deriving DecidableEq, Repr

def PHASE_ORDER : List Phase :=
  [Phase.preFrame, Phase.fixed, Phase.postPhysicsFixed, Phase.update, Phase.late,
    Phase.renderApply]

/-- A registered system: name, phase, optional order (defaulting to 0).
The run callback is modelled by the event trace, not stored here. -/
structure System where
  name : String
  phase : Phase
  order : Option ℚ := none
deriving DecidableEq, Repr

/-- A JavaScript number: either a finite value (a rational) or one of the
non-finite values NaN, Infinity, -Infinity. -/
inductive JsNum where
  | num (q : ℚ)
  | nan
  | posInf
  | negInf
deriving DecidableEq, Repr

def JsNum.toQ : JsNum → ℚ
  | .num q => q
  | _ => 0

/-- Mirrors assertPositiveNumber: passes iff the value is finite and > 0. -/
def assertPositiveOk : JsNum → Bool
  | .num q => decide (0 < q)
  | _ => false

/-- Mirrors assertNonNegativeNumber: passes iff the value is finite and >= 0. -/
def assertNonNegativeOk : JsNum → Bool
  | .num q => decide (0 ≤ q)
  | _ => false

/-- Mirrors assertIntegerAtLeast: passes iff the value is finite, an integer,
and at least min. -/
def assertIntegerAtLeastOk (min : ℚ) : JsNum → Bool
  | .num q => q.den == 1 && decide (min ≤ q)
  | _ => false

/-- The raw constructor options of EngineConfig (absent fields default). -/
structure EngineConfig where
  fixedDt : Option JsNum := none
  maxSubSteps : Option JsNum := none
  maxFrameDt : Option JsNum := none
  timeScale : Option JsNum := none

/-- The validated configuration held by a constructed Engine. -/
structure EngineCfg where
  fixedDt : ℚ
  maxSubSteps : ℕ
  maxFrameDt : ℚ
  timeScale : ℚ
deriving DecidableEq, Repr

def EngineConfig.fdOf (c : EngineConfig) : JsNum := c.fixedDt.getD (JsNum.num (1 / 60))

def EngineConfig.mssOf (c : EngineConfig) : JsNum := c.maxSubSteps.getD (JsNum.num 5)

def EngineConfig.mfdOf (c : EngineConfig) : JsNum := c.maxFrameDt.getD (JsNum.num (1 / 4))

def EngineConfig.tsOf (c : EngineConfig) : JsNum := c.timeScale.getD (JsNum.num 1)

/-- Mirrors the Engine constructor: apply defaults, then validate
fixedDt, maxSubSteps, maxFrameDt, timeScale in order; any violation throws. -/
def mkEngine (c : EngineConfig) : Except String EngineCfg :=
  if assertPositiveOk c.fdOf = false then Except.error "Engine.fixedDt must be > 0"
  else if assertIntegerAtLeastOk 1 c.mssOf = false then
    Except.error "Engine.maxSubSteps must be an integer >= 1"
  else if assertPositiveOk c.mfdOf = false then Except.error "Engine.maxFrameDt must be > 0"
  else if assertNonNegativeOk c.tsOf = false then Except.error "Engine.timeScale must be >= 0"
  else Except.ok
    { fixedDt := c.fdOf.toQ, maxSubSteps := c.mssOf.toQ.num.toNat, maxFrameDt := c.mfdOf.toQ,
      timeScale := c.tsOf.toQ }

/-- The per-phase system buckets (systemsByPhase). -/
def Registry : Type := Phase → List System

/-- The effective order of a system: order with a missing value read as 0. -/
def sysOrder (s : System) : ℚ := s.order.getD 0

/-- The comparator of sortSystems: ascending order, ties broken by name. -/
def sysLe (a b : System) : Prop :=
  sysOrder a < sysOrder b ∨ (sysOrder a = sysOrder b ∧ a.name ≤ b.name)

instance : DecidableRel sysLe := fun a b => by
  unfold sysLe
  infer_instance

/-- Mirrors sortSystems: sort a bucket by (order ascending, name ascending). -/
def sortSystems (l : List System) : List System := List.insertionSort sysLe l

/-- Mirrors Engine.registerSystem: reject a duplicate name within the bucket of
the phase of the system, otherwise push and re-sort that bucket. -/
def registerSystem (r : Registry) (s : System) : Except String Registry :=
  if (r s.phase).any (fun t => t.name == s.name) then
    Except.error ("System name already registered: " ++ s.name)
  else
    Except.ok (fun p => if p = s.phase then sortSystems ((r s.phase).concat s) else r p)

/-- Mirrors Engine.registerSystems: register each element in sequence; on the
first failure stop, keeping everything registered so far (no rollback). -/
def registerSystems (r : Registry) : List System → Registry × Option String
  | [] => (r, none)
  | s :: rest =>
    match registerSystem r s with
    | Except.ok r2 => registerSystems r2 rest
    | Except.error e => (r, some e)

def emptyRegistry : Registry := fun _ => []

/-- The SystemContext delivered to a callback (optional fields are none when
the code does not set them for that phase). -/
structure RunCtx where
  phase : Phase
  frameDt : ℚ
  fixedDt : ℚ
  alpha : Option ℚ := none
  now : ℚ
  tick : ℕ
  subStep : Option ℕ := none
  subStepsThisFrame : Option ℕ := none
  droppedTime : Option ℚ := none
deriving DecidableEq, Repr

/-- One traced callback invocation: which system ran, in which phase, with
which dt argument and which SystemContext. -/
structure Event where
  sysName : String
  phase : Phase
  arg : ℚ
  ctx : RunCtx
deriving DecidableEq, Repr

/-- Mirrors Engine.runPhase on a given bucket: every system of the bucket is
invoked once, in bucket order, with the same dt argument and context. -/
def runBucket (l : List System) (p : Phase) (arg : ℚ) (ctx : RunCtx) : List Event :=
  l.map (fun s => { sysName := s.name, phase := p, arg := arg, ctx := ctx })

/-- The mutable engine and world state the scheduler itself reads and writes:
accumulator, world.tick, world.now, the ready flag, and the keyed store
(abstract: the scheduler never touches it). -/
structure EngState (σ : Type) where
  accumulator : ℚ := 0
  tick : ℕ := 0
  now : ℚ := 0
  ready : Bool := false
  store : σ

/-- Output of the fixed-step while loop: final accumulator, world.tick,
subSteps counter, traced events, and the dt of each physics.step call. -/
structure LoopOut where
  acc : ℚ
  tick : ℕ
  subSteps : ℕ
  events : List Event
  physicsSteps : List ℚ
deriving DecidableEq, Repr

/-- The fixed-step while loop of Engine.frame.  The source condition is
accumulator >= fixedDt and subSteps < maxSubSteps; the fuel argument equals
maxSubSteps minus subSteps, so fuel = 0 exactly when subSteps = maxSubSteps. -/
def fixedLoop (cfg : EngineCfg) (r : Registry) (dt now : ℚ) :
    ℚ → ℕ → ℕ → ℕ → LoopOut
  | acc, tick, subSteps, 0 => ⟨acc, tick, subSteps, [], []⟩
  | acc, tick, subSteps, Nat.succ fuel =>
    if cfg.fixedDt ≤ acc then
      let evF := runBucket (r Phase.fixed) Phase.fixed cfg.fixedDt
        { phase := Phase.fixed, frameDt := dt, fixedDt := cfg.fixedDt, now := now,
          tick := tick, subStep := some subSteps }
      let evP := runBucket (r Phase.postPhysicsFixed) Phase.postPhysicsFixed cfg.fixedDt
        { phase := Phase.postPhysicsFixed, frameDt := dt, fixedDt := cfg.fixedDt, now := now,
          tick := tick, subStep := some subSteps }
      let rest := fixedLoop cfg r dt now (acc - cfg.fixedDt) (tick + 1) (subSteps + 1) fuel
      ⟨rest.acc, rest.tick, rest.subSteps, evF ++ evP ++ rest.events,
        cfg.fixedDt :: rest.physicsSteps⟩
    else ⟨acc, tick, subSteps, [], []⟩

/-- The clamped frame delta: dt = max(0, min(frameDt * timeScale, maxFrameDt)). -/
def clampDt (cfg : EngineCfg) (q : ℚ) : ℚ := max 0 (min (q * cfg.timeScale) cfg.maxFrameDt)

/-- The fixed-step loop as invoked by frame: accumulator incremented by the
clamped dt, subSteps starting at 0, fuel equal to maxSubSteps. -/
def frameLoop {σ : Type} (cfg : EngineCfg) (r : Registry) (s : EngState σ) (q : ℚ) : LoopOut :=
  fixedLoop cfg r (clampDt cfg q) (s.now + clampDt cfg q)
    (s.accumulator + clampDt cfg q) s.tick 0 cfg.maxSubSteps

/-- The soft-drop trigger: subSteps >= maxSubSteps and accumulator > fixedDt. -/
def overloaded (cfg : EngineCfg) (L : LoopOut) : Prop :=
  cfg.maxSubSteps ≤ L.subSteps ∧ cfg.fixedDt < L.acc

instance (cfg : EngineCfg) (L : LoopOut) : Decidable (overloaded cfg L) := by
  unfold overloaded
  infer_instance

/-- Everything one completed frame call produces besides the state update. -/
structure Trace where
  events : List Event
  physicsSteps : List ℚ
  subSteps : ℕ
  droppedTime : ℚ
  alpha : ℚ
  frameDt : ℚ
deriving DecidableEq, Repr

/-- The body of Engine.frame after the ready and validation guards. -/
def frameBody {σ : Type} (cfg : EngineCfg) (r : Registry) (s : EngState σ) (q : ℚ) :
    EngState σ × Trace :=
  let dt := clampDt cfg q
  let now1 := s.now + dt
  let evPre := runBucket (r Phase.preFrame) Phase.preFrame dt
    { phase := Phase.preFrame, frameDt := dt, fixedDt := cfg.fixedDt, now := now1,
      tick := s.tick }
  let L := frameLoop cfg r s q
  let dropped := if overloaded cfg L then L.acc - cfg.fixedDt else 0
  let acc2 := if overloaded cfg L then cfg.fixedDt else L.acc
  let evUpd := runBucket (r Phase.update) Phase.update dt
    { phase := Phase.update, frameDt := dt, fixedDt := cfg.fixedDt, now := now1,
      tick := L.tick, subStepsThisFrame := some L.subSteps, droppedTime := some dropped }
  let evLate := runBucket (r Phase.late) Phase.late dt
    { phase := Phase.late, frameDt := dt, fixedDt := cfg.fixedDt, now := now1,
      tick := L.tick, subStepsThisFrame := some L.subSteps, droppedTime := some dropped }
  let alpha := max 0 (min (acc2 / cfg.fixedDt) 1)
  let evRen := runBucket (r Phase.renderApply) Phase.renderApply alpha
    { phase := Phase.renderApply, frameDt := dt, fixedDt := cfg.fixedDt, alpha := some alpha,
      now := now1, tick := L.tick, subStepsThisFrame := some L.subSteps,
      droppedTime := some dropped }
  ({ s with accumulator := acc2, tick := L.tick, now := now1 },
   { events := evPre ++ L.events ++ evUpd ++ evLate ++ evRen,
     physicsSteps := L.physicsSteps, subSteps := L.subSteps, droppedTime := dropped,
     alpha := alpha, frameDt := dt })

/-- Outcome of one Engine.frame call: silent no-op before Ready, a thrown
validation error, or a completed run. -/
inductive FrameOut (σ : Type) where
  | notReady (s : EngState σ)
  | error (s : EngState σ)
  | ran (s : EngState σ) (tr : Trace)

/-- Mirrors Engine.frame: no-op when not ready; then the non-negative-number
assertion on the argument (throwing on NaN, infinities and negatives, before
any state is mutated); then the frame body. -/
def frame {σ : Type} (cfg : EngineCfg) (r : Registry) (s : EngState σ) (v : JsNum) :
    FrameOut σ :=
  if s.ready = false then FrameOut.notReady s
  else
    match v with
    | JsNum.num q =>
      if q < 0 then FrameOut.error s
      else
        let p := frameBody cfg r s q
        FrameOut.ran p.1 p.2
    | _ => FrameOut.error s

def FrameOut.stateOf {σ : Type} : FrameOut σ → EngState σ
  | .notReady s => s
  | .error s => s
  | .ran s _ => s

def FrameOut.traceOf {σ : Type} : FrameOut σ → Option Trace
  | .ran _ tr => some tr
  | _ => none

/-- A sequence of frame calls, threading the engine state. -/
def runFrames {σ : Type} (cfg : EngineCfg) (r : Registry) (s : EngState σ) :
    List JsNum → EngState σ
  | [] => s
  | v :: rest => runFrames cfg r (frame cfg r s v).stateOf rest

/-- How many traced invocations a (phase, name) pair received. -/
def countEvents (evs : List Event) (p : Phase) (n : String) : ℕ :=
  (evs.filter (fun e => decide (e.phase = p) && decide (e.sysName = n))).length

/-- The optional async init hooks of the physics and net collaborators:
none models an absent hook, some models a hook with its resolved outcome. -/
structure InitHooks where
  physInit : Option (Except String Unit) := none
  netInit : Option (Except String Unit) := none

inductive Hook where
  | phys
  | net
deriving DecidableEq, Repr

/-- The init lifecycle state: the ready flag, the cached promise outcome
(none until the first init call), per-hook invocation counters and the
invocation log. -/
structure InitState where
  ready : Bool := false
  cached : Option (Except String Unit) := none
  physCalls : ℕ := 0
  netCalls : ℕ := 0
  log : List Hook := []

/-- Mirrors Engine.init: return the cached outcome when present; otherwise
await the physics hook (when it exists), then the net hook (when it exists),
set ready only when both succeed, and cache the outcome either way. -/
def init (hk : InitHooks) (s : InitState) : InitState × Except String Unit :=
  match s.cached with
  | some out => (s, out)
  | none =>
    let s1 := match hk.physInit with
      | none => s
      | some _ => { s with physCalls := s.physCalls + 1, log := s.log ++ [Hook.phys] }
    match hk.physInit.getD (Except.ok ()) with
    | Except.error e => ({ s1 with cached := some (Except.error e) }, Except.error e)
    | Except.ok _ =>
      let s2 := match hk.netInit with
        | none => s1
        | some _ => { s1 with netCalls := s1.netCalls + 1, log := s1.log ++ [Hook.net] }
      match hk.netInit.getD (Except.ok ()) with
      | Except.error e => ({ s2 with cached := some (Except.error e) }, Except.error e)
      | Except.ok _ => ({ s2 with ready := true, cached := some (Except.ok ()) }, Except.ok ())

/-- A sequence of n init calls, collecting each callers outcome. -/
def initCalls (hk : InitHooks) : ℕ → InitState → InitState × List (Except String Unit)
  | 0, s => (s, [])
  | Nat.succ n, s =>
    let p := init hk s
    let rest := initCalls hk n p.1
    (rest.1, p.2 :: rest.2)

/-- The outcome a hook contributes: an absent hook behaves like success. -/
def hookRes (h : Option (Except String Unit)) : Except String Unit := h.getD (Except.ok ())

theorem assertPositiveOk_iff (v : JsNum) :
    assertPositiveOk v = true ↔ ∃ q, v = JsNum.num q ∧ 0 < q := by
  cases v <;> simp [assertPositiveOk]

theorem assertNonNegativeOk_iff (v : JsNum) :
    assertNonNegativeOk v = true ↔ ∃ q, v = JsNum.num q ∧ 0 ≤ q := by
  cases v <;> simp [assertNonNegativeOk]

theorem assertIntegerAtLeastOk_iff (m : ℚ) (v : JsNum) :
    assertIntegerAtLeastOk m v = true ↔ ∃ q, v = JsNum.num q ∧ q.den = 1 ∧ m ≤ q := by
  cases v <;> simp [assertIntegerAtLeastOk]

theorem mkEngine_isOk_iff (c : EngineConfig) :
    (mkEngine c).isOk = true ↔
      assertPositiveOk c.fdOf = true ∧ assertIntegerAtLeastOk 1 c.mssOf = true ∧
        assertPositiveOk c.mfdOf = true ∧ assertNonNegativeOk c.tsOf = true := by
  unfold mkEngine
  split_ifs with h1 h2 h3 h4 <;> simp_all [Except.isOk, Except.toBool]

/-- C7: engine construction fails exactly when one of the four (defaulted)
configuration values is invalid: fixedDt must be a finite positive number,
maxSubSteps a finite integer at least 1, maxFrameDt a finite positive number,
timeScale a finite non-negative number; with every value valid, and in
particular with the all-default configuration, construction succeeds. -/
theorem mkEngine_ok_iff_valid_config :
    (∀ c : EngineConfig, (mkEngine c).isOk = true ↔
      ((∃ q, c.fdOf = JsNum.num q ∧ 0 < q) ∧
        (∃ q, c.mssOf = JsNum.num q ∧ q.den = 1 ∧ 1 ≤ q) ∧
        (∃ q, c.mfdOf = JsNum.num q ∧ 0 < q) ∧
        (∃ q, c.tsOf = JsNum.num q ∧ 0 ≤ q))) ∧
    (mkEngine ⟨none, none, none, none⟩).isOk = true := by
  constructor
  · intro c
    rw [mkEngine_isOk_iff, assertPositiveOk_iff, assertNonNegativeOk_iff,
      assertIntegerAtLeastOk_iff, assertPositiveOk_iff]
  · rw [mkEngine_isOk_iff, assertPositiveOk_iff, assertNonNegativeOk_iff,
      assertIntegerAtLeastOk_iff, assertPositiveOk_iff]
    exact ⟨⟨1 / 60, rfl, by norm_num⟩, ⟨5, rfl, by norm_num, by norm_num⟩,
      ⟨1 / 4, rfl, by norm_num⟩, ⟨1, rfl, by norm_num⟩⟩

theorem frame_eq_notReady {σ : Type} (cfg : EngineCfg) (r : Registry) {s : EngState σ}
    (v : JsNum) (hs : s.ready = false) : frame cfg r s v = FrameOut.notReady s := by
  simp [frame, hs]

theorem frame_eq_ran {σ : Type} (cfg : EngineCfg) (r : Registry) {s : EngState σ} {q : ℚ}
    (hs : s.ready = true) (hq : 0 ≤ q) :
    frame cfg r s (JsNum.num q) =
      FrameOut.ran (frameBody cfg r s q).1 (frameBody cfg r s q).2 := by
  simp [frame, hs, not_lt.mpr hq]

theorem frame_eq_error {σ : Type} (cfg : EngineCfg) (r : Registry) {s : EngState σ}
    {v : JsNum} (hs : s.ready = true) (hv : ¬ ∃ q, v = JsNum.num q ∧ 0 ≤ q) :
    frame cfg r s v = FrameOut.error s := by
  cases v with
  | num q =>
    have hq : q < 0 := by
      by_contra hc
      exact hv ⟨q, rfl, not_lt.mp hc⟩
    simp [frame, hs, hq]
  | nan => simp [frame, hs]
  | posInf => simp [frame, hs]
  | negInf => simp [frame, hs]

theorem runBucket_mem_elim {l : List System} {p : Phase} {a : ℚ} {c : RunCtx} {e : Event}
    (h : e ∈ runBucket l p a c) : e.phase = p ∧ e.arg = a ∧ e.ctx = c := by
  obtain ⟨t, _, rfl⟩ := List.mem_map.mp h
  exact ⟨rfl, rfl, rfl⟩

theorem runBucket_mem_intro {l : List System} {p : Phase} {a : ℚ} {c : RunCtx} {t : System}
    (h : t ∈ l) : ({ sysName := t.name, phase := p, arg := a, ctx := c } : Event) ∈
      runBucket l p a c :=
  List.mem_map_of_mem _ h

theorem fixedLoop_subSteps_le (cfg : EngineCfg) (r : Registry) (dt now : ℚ) :
    ∀ (fuel : ℕ) (acc : ℚ) (tick subSteps : ℕ),
      (fixedLoop cfg r dt now acc tick subSteps fuel).subSteps ≤ subSteps + fuel := by
  intro fuel
  induction fuel with
  | zero => intro acc tick subSteps; simp [fixedLoop]
  | succ n ih =>
    intro acc tick subSteps
    by_cases h : cfg.fixedDt ≤ acc
    · have hr := ih (acc - cfg.fixedDt) (tick + 1) (subSteps + 1)
      simp only [fixedLoop, if_pos h]
      omega
    · simp only [fixedLoop, if_neg h]
      omega

theorem fixedLoop_subSteps_ge (cfg : EngineCfg) (r : Registry) (dt now : ℚ) :
    ∀ (fuel : ℕ) (acc : ℚ) (tick subSteps : ℕ),
      subSteps ≤ (fixedLoop cfg r dt now acc tick subSteps fuel).subSteps := by
  intro fuel
  induction fuel with
  | zero => intro acc tick subSteps; simp [fixedLoop]
  | succ n ih =>
    intro acc tick subSteps
    by_cases h : cfg.fixedDt ≤ acc
    · have hr := ih (acc - cfg.fixedDt) (tick + 1) (subSteps + 1)
      simp only [fixedLoop, if_pos h]
      omega
    · simp only [fixedLoop, if_neg h]
      omega

theorem fixedLoop_tick_add (cfg : EngineCfg) (r : Registry) (dt now : ℚ) :
    ∀ (fuel : ℕ) (acc : ℚ) (tick subSteps : ℕ),
      (fixedLoop cfg r dt now acc tick subSteps fuel).tick + subSteps =
        tick + (fixedLoop cfg r dt now acc tick subSteps fuel).subSteps := by
  intro fuel
  induction fuel with
  | zero => intro acc tick subSteps; simp [fixedLoop]
  | succ n ih =>
    intro acc tick subSteps
    by_cases h : cfg.fixedDt ≤ acc
    · have hr := ih (acc - cfg.fixedDt) (tick + 1) (subSteps + 1)
      simp only [fixedLoop, if_pos h]
      omega
    · simp only [fixedLoop, if_neg h]

theorem fixedLoop_acc_nonneg (cfg : EngineCfg) (r : Registry) (dt now : ℚ) :
    ∀ (fuel : ℕ) (acc : ℚ) (tick subSteps : ℕ), 0 ≤ acc →
      0 ≤ (fixedLoop cfg r dt now acc tick subSteps fuel).acc := by
  intro fuel
  induction fuel with
  | zero => intro acc tick subSteps hacc; simpa [fixedLoop] using hacc
  | succ n ih =>
    intro acc tick subSteps hacc
    by_cases h : cfg.fixedDt ≤ acc
    · have hr := ih (acc - cfg.fixedDt) (tick + 1) (subSteps + 1) (by linarith)
      simpa only [fixedLoop, if_pos h] using hr
    · simpa only [fixedLoop, if_neg h] using hacc

theorem fixedLoop_exit (cfg : EngineCfg) (r : Registry) (dt now : ℚ) :
    ∀ (fuel : ℕ) (acc : ℚ) (tick subSteps : ℕ),
      (fixedLoop cfg r dt now acc tick subSteps fuel).acc < cfg.fixedDt ∨
        (fixedLoop cfg r dt now acc tick subSteps fuel).subSteps = subSteps + fuel := by
  intro fuel
  induction fuel with
  | zero => intro acc tick subSteps; simp [fixedLoop]
  | succ n ih =>
    intro acc tick subSteps
    by_cases h : cfg.fixedDt ≤ acc
    · have hr := ih (acc - cfg.fixedDt) (tick + 1) (subSteps + 1)
      simp only [fixedLoop, if_pos h]
      rcases hr with h1 | h1
      · exact Or.inl h1
      · exact Or.inr (by omega)
    · simp only [fixedLoop, if_neg h]
      exact Or.inl (lt_of_not_le h)

theorem fixedLoop_events_phase (cfg : EngineCfg) (r : Registry) (dt now : ℚ) :
    ∀ (fuel : ℕ) (acc : ℚ) (tick subSteps : ℕ),
      ∀ e ∈ (fixedLoop cfg r dt now acc tick subSteps fuel).events,
        e.phase = Phase.fixed ∨ e.phase = Phase.postPhysicsFixed := by
  intro fuel
  induction fuel with
  | zero => intro acc tick subSteps e he; simp [fixedLoop] at he
  | succ n ih =>
    intro acc tick subSteps e he
    by_cases h : cfg.fixedDt ≤ acc
    · simp only [fixedLoop, if_pos h, List.mem_append] at he
      rcases he with (he | he) | he
      · exact Or.inl (runBucket_mem_elim he).1
      · exact Or.inr (runBucket_mem_elim he).1
      · exact ih (acc - cfg.fixedDt) (tick + 1) (subSteps + 1) e he
    · simp [fixedLoop, if_neg h] at he

theorem fixedLoop_physicsSteps_mem (cfg : EngineCfg) (r : Registry) (dt now : ℚ) :
    ∀ (fuel : ℕ) (acc : ℚ) (tick subSteps : ℕ),
      ∀ x ∈ (fixedLoop cfg r dt now acc tick subSteps fuel).physicsSteps,
        x = cfg.fixedDt := by
  intro fuel
  induction fuel with
  | zero => intro acc tick subSteps x hx; simp [fixedLoop] at hx
  | succ n ih =>
    intro acc tick subSteps x hx
    by_cases h : cfg.fixedDt ≤ acc
    · simp only [fixedLoop, if_pos h, List.mem_cons] at hx
      rcases hx with rfl | hx
      · rfl
      · exact ih (acc - cfg.fixedDt) (tick + 1) (subSteps + 1) x hx
    · simp [fixedLoop, if_neg h] at hx

theorem clampDt_nonneg (cfg : EngineCfg) (q : ℚ) : 0 ≤ clampDt cfg q :=
  le_max_left 0 _

theorem clampDt_zero (cfg : EngineCfg) : clampDt cfg 0 = 0 := by
  unfold clampDt
  rw [zero_mul]
  rcases le_total 0 cfg.maxFrameDt with h | h
  · rw [min_eq_left h, max_self]
  · rw [min_eq_right h, max_eq_left h]

/-- The droppedTime value a completed frame computes. -/
def frameDropped {σ : Type} (cfg : EngineCfg) (r : Registry) (s : EngState σ) (q : ℚ) : ℚ :=
  if overloaded cfg (frameLoop cfg r s q) then (frameLoop cfg r s q).acc - cfg.fixedDt else 0

/-- The post-soft-drop accumulator a completed frame computes. -/
def frameAcc {σ : Type} (cfg : EngineCfg) (r : Registry) (s : EngState σ) (q : ℚ) : ℚ :=
  if overloaded cfg (frameLoop cfg r s q) then cfg.fixedDt else (frameLoop cfg r s q).acc

/-- The clamped interpolation alpha a completed frame computes. -/
def frameAlpha {σ : Type} (cfg : EngineCfg) (r : Registry) (s : EngState σ) (q : ℚ) : ℚ :=
  max 0 (min (frameAcc cfg r s q / cfg.fixedDt) 1)

def framePreCtx {σ : Type} (cfg : EngineCfg) (s : EngState σ) (q : ℚ) : RunCtx :=
  { phase := Phase.preFrame, frameDt := clampDt cfg q, fixedDt := cfg.fixedDt,
    now := s.now + clampDt cfg q, tick := s.tick }

def frameUpdCtx {σ : Type} (cfg : EngineCfg) (r : Registry) (s : EngState σ) (q : ℚ) :
    RunCtx :=
  { phase := Phase.update, frameDt := clampDt cfg q, fixedDt := cfg.fixedDt,
    now := s.now + clampDt cfg q, tick := (frameLoop cfg r s q).tick,
    subStepsThisFrame := some (frameLoop cfg r s q).subSteps,
    droppedTime := some (frameDropped cfg r s q) }

def frameLateCtx {σ : Type} (cfg : EngineCfg) (r : Registry) (s : EngState σ) (q : ℚ) :
    RunCtx :=
  { phase := Phase.late, frameDt := clampDt cfg q, fixedDt := cfg.fixedDt,
    now := s.now + clampDt cfg q, tick := (frameLoop cfg r s q).tick,
    subStepsThisFrame := some (frameLoop cfg r s q).subSteps,
    droppedTime := some (frameDropped cfg r s q) }

def frameRenCtx {σ : Type} (cfg : EngineCfg) (r : Registry) (s : EngState σ) (q : ℚ) :
    RunCtx :=
  { phase := Phase.renderApply, frameDt := clampDt cfg q, fixedDt := cfg.fixedDt,
    alpha := some (frameAlpha cfg r s q), now := s.now + clampDt cfg q,
    tick := (frameLoop cfg r s q).tick,
    subStepsThisFrame := some (frameLoop cfg r s q).subSteps,
    droppedTime := some (frameDropped cfg r s q) }

theorem frameBody_state_eq {σ : Type} (cfg : EngineCfg) (r : Registry) (s : EngState σ)
    (q : ℚ) :
    (frameBody cfg r s q).1 =
      { s with
        accumulator := frameAcc cfg r s q,
        tick := (frameLoop cfg r s q).tick,
        now := s.now + clampDt cfg q } := rfl

theorem frameBody_droppedTime {σ : Type} (cfg : EngineCfg) (r : Registry) (s : EngState σ)
    (q : ℚ) :
    (frameBody cfg r s q).2.droppedTime = frameDropped cfg r s q := rfl

theorem frameBody_subSteps {σ : Type} (cfg : EngineCfg) (r : Registry) (s : EngState σ)
    (q : ℚ) :
    (frameBody cfg r s q).2.subSteps = (frameLoop cfg r s q).subSteps := rfl

theorem frameBody_physicsSteps {σ : Type} (cfg : EngineCfg) (r : Registry) (s : EngState σ)
    (q : ℚ) :
    (frameBody cfg r s q).2.physicsSteps = (frameLoop cfg r s q).physicsSteps := rfl

theorem frameBody_alpha {σ : Type} (cfg : EngineCfg) (r : Registry) (s : EngState σ)
    (q : ℚ) :
    (frameBody cfg r s q).2.alpha = frameAlpha cfg r s q := rfl

theorem frameBody_events {σ : Type} (cfg : EngineCfg) (r : Registry) (s : EngState σ)
    (q : ℚ) :
    (frameBody cfg r s q).2.events =
      runBucket (r Phase.preFrame) Phase.preFrame (clampDt cfg q) (framePreCtx cfg s q) ++
        (frameLoop cfg r s q).events ++
        runBucket (r Phase.update) Phase.update (clampDt cfg q) (frameUpdCtx cfg r s q) ++
        runBucket (r Phase.late) Phase.late (clampDt cfg q) (frameLateCtx cfg r s q) ++
        runBucket (r Phase.renderApply) Phase.renderApply (frameAlpha cfg r s q)
          (frameRenCtx cfg r s q) := rfl

theorem fixedLoop_enter (cfg : EngineCfg) (r : Registry) (dt now : ℚ) (acc : ℚ)
    (tick subSteps k : ℕ) (h : cfg.fixedDt ≤ acc) :
    fixedLoop cfg r dt now acc tick subSteps (k + 1) =
      { acc := (fixedLoop cfg r dt now (acc - cfg.fixedDt) (tick + 1) (subSteps + 1) k).acc,
        tick := (fixedLoop cfg r dt now (acc - cfg.fixedDt) (tick + 1) (subSteps + 1) k).tick,
        subSteps :=
          (fixedLoop cfg r dt now (acc - cfg.fixedDt) (tick + 1) (subSteps + 1) k).subSteps,
        events :=
          runBucket (r Phase.fixed) Phase.fixed cfg.fixedDt
              { phase := Phase.fixed, frameDt := dt, fixedDt := cfg.fixedDt, now := now,
                tick := tick, subStep := some subSteps } ++
            runBucket (r Phase.postPhysicsFixed) Phase.postPhysicsFixed cfg.fixedDt
              { phase := Phase.postPhysicsFixed, frameDt := dt, fixedDt := cfg.fixedDt,
                now := now, tick := tick, subStep := some subSteps } ++
            (fixedLoop cfg r dt now (acc - cfg.fixedDt) (tick + 1) (subSteps + 1) k).events,
        physicsSteps :=
          cfg.fixedDt ::
            (fixedLoop cfg r dt now (acc - cfg.fixedDt) (tick + 1)
              (subSteps + 1) k).physicsSteps } := by
  simp only [fixedLoop, if_pos h]

theorem frameLoop_subSteps_le_max {σ : Type} (cfg : EngineCfg) (r : Registry)
    (s : EngState σ) (q : ℚ) : (frameLoop cfg r s q).subSteps ≤ cfg.maxSubSteps := by
  have h := fixedLoop_subSteps_le cfg r (clampDt cfg q) (s.now + clampDt cfg q)
    cfg.maxSubSteps (s.accumulator + clampDt cfg q) s.tick 0
  simpa [frameLoop] using h

theorem overloaded_iff_eq {σ : Type} (cfg : EngineCfg) (r : Registry) (s : EngState σ)
    (q : ℚ) :
    overloaded cfg (frameLoop cfg r s q) ↔
      ((frameLoop cfg r s q).subSteps = cfg.maxSubSteps ∧
        cfg.fixedDt < (frameLoop cfg r s q).acc) := by
  have hub := frameLoop_subSteps_le_max cfg r s q
  unfold overloaded
  constructor
  · rintro ⟨h1, h2⟩
    exact ⟨le_antisymm hub h1, h2⟩
  · rintro ⟨h1, h2⟩
    exact ⟨h1.ge, h2⟩

/-- C2: soft-drop overload policy.  In every completed frame, writing L for
the state of the fixed-step loop at exit: when L hit maxSubSteps sub-steps
and left more than fixedDt in the accumulator, droppedTime is the excess
over fixedDt and the accumulator is clamped to exactly fixedDt; in every
other case droppedTime is exactly 0 and the accumulator keeps the loop exit
value.  The droppedTime so computed is the value delivered in the context of
every update, late and renderApply invocation of that frame. -/
theorem frame_soft_drop {σ : Type} (cfg : EngineCfg) (r : Registry) (s : EngState σ)
    (q : ℚ) (hs : s.ready = true) (hq : 0 ≤ q) :
    ∃ s2 tr, frame cfg r s (JsNum.num q) = FrameOut.ran s2 tr ∧
      ((frameLoop cfg r s q).subSteps = cfg.maxSubSteps ∧
          cfg.fixedDt < (frameLoop cfg r s q).acc →
        tr.droppedTime = (frameLoop cfg r s q).acc - cfg.fixedDt ∧
          s2.accumulator = cfg.fixedDt) ∧
      (¬ ((frameLoop cfg r s q).subSteps = cfg.maxSubSteps ∧
          cfg.fixedDt < (frameLoop cfg r s q).acc) →
        tr.droppedTime = 0 ∧ s2.accumulator = (frameLoop cfg r s q).acc) ∧
      (∀ e ∈ tr.events,
        e.phase = Phase.update ∨ e.phase = Phase.late ∨ e.phase = Phase.renderApply →
          e.ctx.droppedTime = some tr.droppedTime) := by
  refine ⟨(frameBody cfg r s q).1, (frameBody cfg r s q).2, frame_eq_ran cfg r hs hq,
    ?_, ?_, ?_⟩
  · intro hcond
    have ho : overloaded cfg (frameLoop cfg r s q) := (overloaded_iff_eq cfg r s q).mpr hcond
    constructor
    · rw [frameBody_droppedTime]
      unfold frameDropped
      rw [if_pos ho]
    · show frameAcc cfg r s q = cfg.fixedDt
      unfold frameAcc
      rw [if_pos ho]
  · intro hcond
    have ho : ¬ overloaded cfg (frameLoop cfg r s q) := fun h =>
      hcond ((overloaded_iff_eq cfg r s q).mp h)
    constructor
    · rw [frameBody_droppedTime]
      unfold frameDropped
      rw [if_neg ho]
    · show frameAcc cfg r s q = (frameLoop cfg r s q).acc
      unfold frameAcc
      rw [if_neg ho]
  · intro e he hph
    rw [frameBody_events] at he
    simp only [List.mem_append] at he
    rcases he with ((((he | he) | he) | he) | he)
    · have h1 := (runBucket_mem_elim he).1
      rcases hph with h | h | h <;> rw [h1] at h <;> exact absurd h (by decide)
    · have h1 := fixedLoop_events_phase cfg r (clampDt cfg q) (s.now + clampDt cfg q)
        cfg.maxSubSteps (s.accumulator + clampDt cfg q) s.tick 0 e
        (by simpa [frameLoop] using he)
      rcases h1 with h1 | h1 <;> rcases hph with h | h | h <;> rw [h1] at h <;>
        exact absurd h (by decide)
    · rw [(runBucket_mem_elim he).2.2, frameBody_droppedTime]
      rfl
    · rw [(runBucket_mem_elim he).2.2, frameBody_droppedTime]
      rfl
    · rw [(runBucket_mem_elim he).2.2, frameBody_droppedTime]
      rfl

def wCfg : EngineCfg := { fixedDt := 1 / 10, maxSubSteps := 5, maxFrameDt := 1, timeScale := 1 }

def wCfgOverload : EngineCfg :=
  { fixedDt := 1 / 10, maxSubSteps := 2, maxFrameDt := 1, timeScale := 1 }

def wReg : Registry := fun p => [{ name := "probe", phase := p }]

def wState : EngState Unit :=
  { accumulator := 0, tick := 0, now := 0, ready := true, store := () }

theorem frame_soft_drop_witness :
    ∃ s2 tr, frame wCfgOverload wReg wState (JsNum.num (7 / 20)) = FrameOut.ran s2 tr ∧
      ((frameLoop wCfgOverload wReg wState (7 / 20)).subSteps = wCfgOverload.maxSubSteps ∧
          wCfgOverload.fixedDt < (frameLoop wCfgOverload wReg wState (7 / 20)).acc →
        tr.droppedTime =
            (frameLoop wCfgOverload wReg wState (7 / 20)).acc - wCfgOverload.fixedDt ∧
          s2.accumulator = wCfgOverload.fixedDt) ∧
      (¬ ((frameLoop wCfgOverload wReg wState (7 / 20)).subSteps = wCfgOverload.maxSubSteps ∧
          wCfgOverload.fixedDt < (frameLoop wCfgOverload wReg wState (7 / 20)).acc) →
        tr.droppedTime = 0 ∧
          s2.accumulator = (frameLoop wCfgOverload wReg wState (7 / 20)).acc) ∧
      (∀ e ∈ tr.events,
        e.phase = Phase.update ∨ e.phase = Phase.late ∨ e.phase = Phase.renderApply →
          e.ctx.droppedTime = some tr.droppedTime) :=
  frame_soft_drop wCfgOverload wReg wState (7 / 20) rfl (by norm_num)

theorem frameBody_acc_bounds {σ : Type} (cfg : EngineCfg) (r : Registry) (s : EngState σ)
    (q : ℚ) (hfd : 0 < cfg.fixedDt) (hacc : 0 ≤ s.accumulator) :
    0 ≤ (frameBody cfg r s q).1.accumulator ∧
      (frameBody cfg r s q).1.accumulator ≤ cfg.fixedDt := by
  have hdt := clampDt_nonneg cfg q
  have hL0 : 0 ≤ (frameLoop cfg r s q).acc := by
    have h := fixedLoop_acc_nonneg cfg r (clampDt cfg q) (s.now + clampDt cfg q)
      cfg.maxSubSteps (s.accumulator + clampDt cfg q) s.tick 0 (by linarith)
    simpa [frameLoop] using h
  have hexit : (frameLoop cfg r s q).acc < cfg.fixedDt ∨
      (frameLoop cfg r s q).subSteps = 0 + cfg.maxSubSteps := by
    have h := fixedLoop_exit cfg r (clampDt cfg q) (s.now + clampDt cfg q)
      cfg.maxSubSteps (s.accumulator + clampDt cfg q) s.tick 0
    simpa [frameLoop] using h
  show 0 ≤ frameAcc cfg r s q ∧ frameAcc cfg r s q ≤ cfg.fixedDt
  unfold frameAcc
  by_cases ho : overloaded cfg (frameLoop cfg r s q)
  · rw [if_pos ho]
    exact ⟨le_of_lt hfd, le_rfl⟩
  · rw [if_neg ho]
    refine ⟨hL0, ?_⟩
    unfold overloaded at ho
    rcases hexit with h1 | h1
    · exact le_of_lt h1
    · exact le_of_not_lt (not_and.mp ho (by omega))

theorem frame_preserves_bounds {σ : Type} (cfg : EngineCfg) (r : Registry) (v : JsNum)
    {s : EngState σ} (hfd : 0 < cfg.fixedDt)
    (h : 0 ≤ s.accumulator ∧ s.accumulator ≤ cfg.fixedDt) :
    0 ≤ (frame cfg r s v).stateOf.accumulator ∧
      (frame cfg r s v).stateOf.accumulator ≤ cfg.fixedDt := by
  by_cases hs : s.ready = true
  · cases v with
    | num q =>
      by_cases hq : 0 ≤ q
      · rw [frame_eq_ran cfg r hs hq]
        exact frameBody_acc_bounds cfg r s q hfd h.1
      · rw [frame_eq_error cfg r hs (by rintro ⟨q2, hv, hge⟩; cases hv; exact hq hge)]
        simpa [FrameOut.stateOf] using h
    | nan =>
      rw [frame_eq_error cfg r hs (by rintro ⟨q2, hv, hge⟩; cases hv)]
      simpa [FrameOut.stateOf] using h
    | posInf =>
      rw [frame_eq_error cfg r hs (by rintro ⟨q2, hv, hge⟩; cases hv)]
      simpa [FrameOut.stateOf] using h
    | negInf =>
      rw [frame_eq_error cfg r hs (by rintro ⟨q2, hv, hge⟩; cases hv)]
      simpa [FrameOut.stateOf] using h
  · rw [frame_eq_notReady cfg r v (by simpa using hs)]
    simpa [FrameOut.stateOf] using h

theorem runFrames_preserves_bounds {σ : Type} (cfg : EngineCfg) (r : Registry)
    (hfd : 0 < cfg.fixedDt) :
    ∀ (l : List JsNum) (s : EngState σ),
      0 ≤ s.accumulator ∧ s.accumulator ≤ cfg.fixedDt →
        0 ≤ (runFrames cfg r s l).accumulator ∧
          (runFrames cfg r s l).accumulator ≤ cfg.fixedDt := by
  intro l
  induction l with
  | nil => intro s h; simpa [runFrames] using h
  | cons v rest ih =>
    intro s h
    have hstep := frame_preserves_bounds cfg r v hfd h
    simpa [runFrames] using ih (frame cfg r s v).stateOf hstep

/-- C4: for every engine (any configuration with a valid positive fixedDt)
and every sequence of frame calls with arbitrary arguments, starting from the
initial accumulator 0, the accumulator satisfies 0 <= accumulator <= fixedDt
after every completed call, so the catch-up debt carried between driver
ticks never exceeds fixedDt. -/
theorem runFrames_accumulator_bounded {σ : Type} (cfg : EngineCfg) (r : Registry)
    (s : EngState σ) (l : List JsNum) (hfd : 0 < cfg.fixedDt) (hacc : s.accumulator = 0) :
    0 ≤ (runFrames cfg r s l).accumulator ∧
      (runFrames cfg r s l).accumulator ≤ cfg.fixedDt :=
  runFrames_preserves_bounds cfg r hfd l s ⟨by rw [hacc], by rw [hacc]; exact le_of_lt hfd⟩

theorem runFrames_accumulator_bounded_witness :
    0 ≤ (runFrames wCfg wReg wState
        [JsNum.num (7 / 20), JsNum.nan, JsNum.num 2, JsNum.num 0]).accumulator ∧
      (runFrames wCfg wReg wState
        [JsNum.num (7 / 20), JsNum.nan, JsNum.num 2, JsNum.num 0]).accumulator ≤
        wCfg.fixedDt :=
  runFrames_accumulator_bounded wCfg wReg wState
    [JsNum.num (7 / 20), JsNum.nan, JsNum.num 2, JsNum.num 0] (by norm_num [wCfg]) rfl

/-- C10: the fixed-step loop condition is accumulator >= fixedDt, not a
strict inequality, so when a completed call left the accumulator exactly at
fixedDt (as the soft-drop clamp does), the next frame call executes at least
one fixed sub-step even with a zero frame delta: the fixed and
postPhysicsFixed systems run with dt = fixedDt, physics.step(fixedDt) is
called, and tick advances by the number of sub-steps (at least one). -/
theorem frame_zero_delta_still_ticks {σ : Type} (cfg : EngineCfg) (r : Registry)
    (s : EngState σ) (hs : s.ready = true) (hacc : s.accumulator = cfg.fixedDt)
    (hmss : 1 ≤ cfg.maxSubSteps) :
    ∃ s2 tr, frame cfg r s (JsNum.num 0) = FrameOut.ran s2 tr ∧
      1 ≤ tr.subSteps ∧ s2.tick = s.tick + tr.subSteps ∧
      cfg.fixedDt ∈ tr.physicsSteps ∧
      (∀ sys ∈ r Phase.fixed, ∃ e ∈ tr.events,
        e.phase = Phase.fixed ∧ e.sysName = sys.name ∧ e.arg = cfg.fixedDt) ∧
      (∀ sys ∈ r Phase.postPhysicsFixed, ∃ e ∈ tr.events,
        e.phase = Phase.postPhysicsFixed ∧ e.sysName = sys.name ∧ e.arg = cfg.fixedDt) := by
  obtain ⟨k, hk⟩ : ∃ k, cfg.maxSubSteps = k + 1 := ⟨cfg.maxSubSteps - 1, by omega⟩
  have hEq : frameLoop cfg r s 0 = fixedLoop cfg r 0 s.now cfg.fixedDt s.tick 0 (k + 1) := by
    unfold frameLoop
    rw [clampDt_zero, hacc, add_zero, add_zero, hk]
  have henter := fixedLoop_enter cfg r 0 s.now cfg.fixedDt s.tick 0 k le_rfl
  have h1 : 1 ≤ (frameLoop cfg r s 0).subSteps := by
    rw [hEq, henter]
    have h := fixedLoop_subSteps_ge cfg r 0 s.now k (cfg.fixedDt - cfg.fixedDt)
      (s.tick + 1) (0 + 1)
    show 1 ≤ (fixedLoop cfg r 0 s.now (cfg.fixedDt - cfg.fixedDt) (s.tick + 1)
      (0 + 1) k).subSteps
    omega
  have htick : (frameLoop cfg r s 0).tick = s.tick + (frameLoop cfg r s 0).subSteps := by
    have h := fixedLoop_tick_add cfg r (clampDt cfg 0) (s.now + clampDt cfg 0)
      cfg.maxSubSteps (s.accumulator + clampDt cfg 0) s.tick 0
    unfold frameLoop
    omega
  have hphys : cfg.fixedDt ∈ (frameLoop cfg r s 0).physicsSteps := by
    rw [hEq, henter]
    exact List.mem_cons_self _ _
  have hloopmem : ∀ p, (p = Phase.fixed ∨ p = Phase.postPhysicsFixed) →
      ∀ sys ∈ r p, ∃ e ∈ (frameLoop cfg r s 0).events,
        e.phase = p ∧ e.sysName = sys.name ∧ e.arg = cfg.fixedDt := by
    intro p hp sys hsys
    refine ⟨Event.mk sys.name p cfg.fixedDt
      (RunCtx.mk p 0 cfg.fixedDt none s.now s.tick (some 0) none none), ?_, rfl, rfl, rfl⟩
    rw [hEq, henter]
    show _ ∈ runBucket (r Phase.fixed) Phase.fixed cfg.fixedDt _ ++
      runBucket (r Phase.postPhysicsFixed) Phase.postPhysicsFixed cfg.fixedDt _ ++ _
    rcases hp with rfl | rfl
    · exact List.mem_append_left _ (List.mem_append_left _ (runBucket_mem_intro hsys))
    · exact List.mem_append_left _ (List.mem_append_right _ (runBucket_mem_intro hsys))
  refine ⟨(frameBody cfg r s 0).1, (frameBody cfg r s 0).2,
    frame_eq_ran cfg r hs le_rfl, ?_, ?_, ?_, ?_, ?_⟩
  · show 1 ≤ (frameLoop cfg r s 0).subSteps
    exact h1
  · show (frameLoop cfg r s 0).tick = s.tick + (frameLoop cfg r s 0).subSteps
    exact htick
  · show cfg.fixedDt ∈ (frameLoop cfg r s 0).physicsSteps
    exact hphys
  · intro sys hsys
    obtain ⟨e, he, hprop⟩ := hloopmem Phase.fixed (Or.inl rfl) sys hsys
    refine ⟨e, ?_, hprop⟩
    rw [frameBody_events]
    simp only [List.mem_append]
    exact Or.inl (Or.inl (Or.inl (Or.inr he)))
  · intro sys hsys
    obtain ⟨e, he, hprop⟩ := hloopmem Phase.postPhysicsFixed (Or.inr rfl) sys hsys
    refine ⟨e, ?_, hprop⟩
    rw [frameBody_events]
    simp only [List.mem_append]
    exact Or.inl (Or.inl (Or.inl (Or.inr he)))

def wStateClamped : EngState Unit :=
  { accumulator := 1 / 10, tick := 7, now := 2, ready := true, store := () }

theorem frame_zero_delta_still_ticks_witness :
    ∃ s2 tr, frame wCfg wReg wStateClamped (JsNum.num 0) = FrameOut.ran s2 tr ∧
      1 ≤ tr.subSteps ∧ s2.tick = wStateClamped.tick + tr.subSteps ∧
      wCfg.fixedDt ∈ tr.physicsSteps ∧
      (∀ sys ∈ wReg Phase.fixed, ∃ e ∈ tr.events,
        e.phase = Phase.fixed ∧ e.sysName = sys.name ∧ e.arg = wCfg.fixedDt) ∧
      (∀ sys ∈ wReg Phase.postPhysicsFixed, ∃ e ∈ tr.events,
        e.phase = Phase.postPhysicsFixed ∧ e.sysName = sys.name ∧ e.arg = wCfg.fixedDt) :=
  frame_zero_delta_still_ticks wCfg wReg wStateClamped rfl rfl (by norm_num [wCfg])

theorem countEvents_append (evs1 evs2 : List Event) (p : Phase) (n : String) :
    countEvents (evs1 ++ evs2) p n = countEvents evs1 p n + countEvents evs2 p n := by
  simp [countEvents, List.filter_append]

theorem countEvents_runBucket_self (l : List System) (p : Phase) (a : ℚ) (c : RunCtx)
    (n : String) :
    countEvents (runBucket l p a c) p n =
      (l.filter (fun t => decide (t.name = n))).length := by
  unfold countEvents runBucket
  induction l with
  | nil => simp
  | cons t tl ih =>
    simp only [List.map_cons, List.filter_cons]
    by_cases hn : t.name = n
    · simp [hn, ih]
    · simp [hn, ih]

theorem countEvents_zero_of_phase {evs : List Event} {p : Phase}
    (h : ∀ e ∈ evs, e.phase ≠ p) (n : String) : countEvents evs p n = 0 := by
  unfold countEvents
  rw [List.length_eq_zero, List.filter_eq_nil_iff]
  intro e he
  simp [h e he]

theorem countEvents_runBucket_ne (l : List System) (p' p : Phase) (a : ℚ) (c : RunCtx)
    (n : String) (h : p' ≠ p) : countEvents (runBucket l p' a c) p n = 0 := by
  refine countEvents_zero_of_phase (fun e he => ?_) n
  rw [(runBucket_mem_elim he).1]
  exact h

theorem length_filter_name_eq_one :
    ∀ {l : List System}, (l.map System.name).Nodup → ∀ {sys : System}, sys ∈ l →
      (l.filter (fun t => decide (t.name = sys.name))).length = 1 := by
  intro l
  induction l with
  | nil => intro _ sys h; simp at h
  | cons a tl ih =>
    intro hnd sys hm
    rw [List.map_cons, List.nodup_cons] at hnd
    rcases List.mem_cons.mp hm with rfl | hm2
    · have hnil : tl.filter (fun t => decide (t.name = sys.name)) = [] := by
        rw [List.filter_eq_nil_iff]
        intro t ht
        simp only [decide_eq_true_eq]
        intro he
        exact hnd.1 (he ▸ List.mem_map_of_mem System.name ht)
      rw [List.filter_cons_of_pos (by simp), hnil]
      rfl
    · have hne : a.name ≠ sys.name := fun he =>
        hnd.1 (he ▸ List.mem_map_of_mem System.name hm2)
      rw [List.filter_cons_of_neg (by simp [hne])]
      exact ih hnd.2 hm2

theorem fixedLoop_countEvents (cfg : EngineCfg) (r : Registry) (dt now : ℚ) (p : Phase)
    (hp : p = Phase.fixed ∨ p = Phase.postPhysicsFixed) (n : String) :
    ∀ (fuel : ℕ) (acc : ℚ) (tick subSteps : ℕ),
      countEvents (fixedLoop cfg r dt now acc tick subSteps fuel).events p n =
        ((fixedLoop cfg r dt now acc tick subSteps fuel).subSteps - subSteps) *
          ((r p).filter (fun t => decide (t.name = n))).length := by
  intro fuel
  induction fuel with
  | zero => intro acc tick subSteps; simp [fixedLoop, countEvents]
  | succ k ih =>
    intro acc tick subSteps
    by_cases h : cfg.fixedDt ≤ acc
    · have hR := ih (acc - cfg.fixedDt) (tick + 1) (subSteps + 1)
      have hge := fixedLoop_subSteps_ge cfg r dt now k (acc - cfg.fixedDt) (tick + 1)
        (subSteps + 1)
      simp only [fixedLoop, if_pos h, countEvents_append]
      rw [hR]
      have hm : (fixedLoop cfg r dt now (acc - cfg.fixedDt) (tick + 1)
            (subSteps + 1) k).subSteps - subSteps =
          ((fixedLoop cfg r dt now (acc - cfg.fixedDt) (tick + 1)
            (subSteps + 1) k).subSteps - (subSteps + 1)) + 1 := by omega
      rw [hm]
      rcases hp with rfl | rfl
      · rw [countEvents_runBucket_self,
          countEvents_runBucket_ne _ _ _ _ _ _ (by decide)]
        ring
      · rw [countEvents_runBucket_self,
          countEvents_runBucket_ne _ _ _ _ _ _ (by decide)]
        ring
    · simp [fixedLoop, if_neg h, countEvents]

theorem frameLoop_countEvents_other {σ : Type} (cfg : EngineCfg) (r : Registry)
    (s : EngState σ) (q : ℚ) (p : Phase) (hp : p ≠ Phase.fixed ∧ p ≠ Phase.postPhysicsFixed)
    (n : String) : countEvents (frameLoop cfg r s q).events p n = 0 := by
  refine countEvents_zero_of_phase (fun e he => ?_) n
  have h := fixedLoop_events_phase cfg r (clampDt cfg q) (s.now + clampDt cfg q)
    cfg.maxSubSteps (s.accumulator + clampDt cfg q) s.tick 0 e
    (by simpa [frameLoop] using he)
  rcases h with h | h <;> rw [h]
  · exact fun hc => hp.1 hc.symm
  · exact fun hc => hp.2 hc.symm

theorem frameLoop_countEvents_fixed {σ : Type} (cfg : EngineCfg) (r : Registry)
    (s : EngState σ) (q : ℚ) (p : Phase)
    (hp : p = Phase.fixed ∨ p = Phase.postPhysicsFixed) (n : String) :
    countEvents (frameLoop cfg r s q).events p n =
      (frameLoop cfg r s q).subSteps *
        ((r p).filter (fun t => decide (t.name = n))).length := by
  have h := fixedLoop_countEvents cfg r (clampDt cfg q) (s.now + clampDt cfg q) p hp n
    cfg.maxSubSteps (s.accumulator + clampDt cfg q) s.tick 0
  simpa [frameLoop] using h

/-- Per-phase invocation counts of one completed frame: the four once-per-frame
phases invoke each occurrence of the name in their bucket once; the two
fixed-step phases invoke it once per executed sub-step; and a phase never
receives events recorded for a different phase. -/
theorem frameBody_countEvents {σ : Type} (cfg : EngineCfg) (r : Registry) (s : EngState σ)
    (q : ℚ) (p : Phase) (n : String) :
    countEvents (frameBody cfg r s q).2.events p n =
      (if p = Phase.fixed ∨ p = Phase.postPhysicsFixed then
        (frameLoop cfg r s q).subSteps *
          ((r p).filter (fun t => decide (t.name = n))).length
      else ((r p).filter (fun t => decide (t.name = n))).length) := by
  rw [frameBody_events, countEvents_append, countEvents_append, countEvents_append,
    countEvents_append]
  cases p
  case preFrame =>
    rw [countEvents_runBucket_self, frameLoop_countEvents_other cfg r s q _ (by decide) n,
      countEvents_runBucket_ne _ _ _ _ _ _ (by decide),
      countEvents_runBucket_ne _ _ _ _ _ _ (by decide),
      countEvents_runBucket_ne _ _ _ _ _ _ (by decide)]
    simp
  case fixed =>
    rw [countEvents_runBucket_ne _ _ _ _ _ _ (by decide),
      frameLoop_countEvents_fixed cfg r s q _ (Or.inl rfl) n,
      countEvents_runBucket_ne _ _ _ _ _ _ (by decide),
      countEvents_runBucket_ne _ _ _ _ _ _ (by decide),
      countEvents_runBucket_ne _ _ _ _ _ _ (by decide)]
    simp
  case postPhysicsFixed =>
    rw [countEvents_runBucket_ne _ _ _ _ _ _ (by decide),
      frameLoop_countEvents_fixed cfg r s q _ (Or.inr rfl) n,
      countEvents_runBucket_ne _ _ _ _ _ _ (by decide),
      countEvents_runBucket_ne _ _ _ _ _ _ (by decide),
      countEvents_runBucket_ne _ _ _ _ _ _ (by decide)]
    simp
  case update =>
    rw [countEvents_runBucket_ne _ _ _ _ _ _ (by decide),
      frameLoop_countEvents_other cfg r s q _ (by decide) n,
      countEvents_runBucket_self,
      countEvents_runBucket_ne _ _ _ _ _ _ (by decide),
      countEvents_runBucket_ne _ _ _ _ _ _ (by decide)]
    simp
  case late =>
    rw [countEvents_runBucket_ne _ _ _ _ _ _ (by decide),
      frameLoop_countEvents_other cfg r s q _ (by decide) n,
      countEvents_runBucket_ne _ _ _ _ _ _ (by decide),
      countEvents_runBucket_self,
      countEvents_runBucket_ne _ _ _ _ _ _ (by decide)]
    simp
  case renderApply =>
    rw [countEvents_runBucket_ne _ _ _ _ _ _ (by decide),
      frameLoop_countEvents_other cfg r s q _ (by decide) n,
      countEvents_runBucket_ne _ _ _ _ _ _ (by decide),
      countEvents_runBucket_ne _ _ _ _ _ _ (by decide),
      countEvents_runBucket_self]
    simp

/-- The engine init state right after construction. -/
def initState0 : InitState :=
  { ready := false, cached := none, physCalls := 0, netCalls := 0, log := [] }

theorem init_cached (hk : InitHooks) {s : InitState} {out : Except String Unit}
    (h : s.cached = some out) : init hk s = (s, out) := by
  unfold init
  rw [h]

theorem initCalls_cached (hk : InitHooks) :
    ∀ (n : ℕ) {s : InitState} {out : Except String Unit}, s.cached = some out →
      initCalls hk n s = (s, List.replicate n out) := by
  intro n
  induction n with
  | zero => intro s out h; simp [initCalls]
  | succ m ih =>
    intro s out h
    simp [initCalls, init_cached hk h, ih h, List.replicate_succ]

theorem init_first (hk : InitHooks) :
    (init hk initState0).1.cached = some (init hk initState0).2 ∧
    (init hk initState0).1.physCalls = (if hk.physInit.isSome then 1 else 0) ∧
    (init hk initState0).1.netCalls =
      (if (hookRes hk.physInit).isOk = true ∧ hk.netInit.isSome then 1 else 0) ∧
    (init hk initState0).1.log =
      ((if hk.physInit.isSome then [Hook.phys] else []) ++
        (if (hookRes hk.physInit).isOk = true ∧ hk.netInit.isSome then [Hook.net]
          else [])) ∧
    ((init hk initState0).1.ready = true ↔
      ((hookRes hk.physInit).isOk = true ∧ (hookRes hk.netInit).isOk = true)) ∧
    ((init hk initState0).2 = Except.ok () ↔
      ((hookRes hk.physInit).isOk = true ∧ (hookRes hk.netInit).isOk = true)) := by
  obtain ⟨hp, hn⟩ := hk
  rcases hp with _ | (y | ep) <;> rcases hn with _ | (z | en) <;>
    simp [init, initState0, hookRes, Except.isOk, Except.toBool]

/-- C6: init is idempotent and single-flight.  Over any positive number of
init calls, every caller receives the outcome of the first call; the physics
hook runs at most once (exactly once when present) and the net hook at most
once (exactly once when present and physics succeeded); the invocation log
shows physics strictly before net; the scheduler is Ready exactly when both
hooks succeeded; and when the first outcome is a failure, the scheduler stays
not-Ready through every further call, each of which returns that same
failure. -/
theorem init_single_flight (hk : InitHooks) (n : ℕ) (hn : 1 ≤ n) :
    (∀ o ∈ (initCalls hk n initState0).2, o = (init hk initState0).2) ∧
    (initCalls hk n initState0).1.physCalls = (if hk.physInit.isSome then 1 else 0) ∧
    (initCalls hk n initState0).1.netCalls =
      (if (hookRes hk.physInit).isOk = true ∧ hk.netInit.isSome then 1 else 0) ∧
    (initCalls hk n initState0).1.log =
      ((if hk.physInit.isSome then [Hook.phys] else []) ++
        (if (hookRes hk.physInit).isOk = true ∧ hk.netInit.isSome then [Hook.net]
          else [])) ∧
    ((initCalls hk n initState0).1.ready = true ↔
      ((hookRes hk.physInit).isOk = true ∧ (hookRes hk.netInit).isOk = true)) ∧
    (∀ e, (init hk initState0).2 = Except.error e →
      (initCalls hk n initState0).1.ready = false ∧
        ∀ o ∈ (initCalls hk n initState0).2, o = Except.error e) := by
  obtain ⟨m, rfl⟩ : ∃ m, n = m + 1 := ⟨n - 1, by omega⟩
  obtain ⟨hc, hpc, hnc, hlog, hready, hout⟩ := init_first hk
  have hs : initCalls hk (m + 1) initState0 =
      ((init hk initState0).1,
        (init hk initState0).2 :: List.replicate m (init hk initState0).2) := by
    simp [initCalls, initCalls_cached hk m hc]
  rw [hs]
  have hmem : ∀ o ∈ (init hk initState0).2 :: List.replicate m (init hk initState0).2,
      o = (init hk initState0).2 := by
    intro o ho
    rcases List.mem_cons.mp ho with rfl | ho2
    · rfl
    · exact List.eq_of_mem_replicate ho2
  refine ⟨hmem, hpc, hnc, hlog, hready, ?_⟩
  intro e he
  have hnotok : ¬ ((hookRes hk.physInit).isOk = true ∧ (hookRes hk.netInit).isOk = true) := by
    intro hP
    rw [hout.mpr hP] at he
    cases he
  constructor
  · cases hb : (init hk initState0).1.ready
    · rfl
    · exact absurd (hready.mp hb) hnotok
  · intro o ho
    rw [hmem o ho, he]

def wHooksNetFail : InitHooks :=
  { physInit := some (Except.ok ()), netInit := some (Except.error "net init failed") }

theorem init_single_flight_witness :
    (∀ o ∈ (initCalls wHooksNetFail 3 initState0).2,
      o = (init wHooksNetFail initState0).2) ∧
    (initCalls wHooksNetFail 3 initState0).1.physCalls =
      (if wHooksNetFail.physInit.isSome then 1 else 0) ∧
    (initCalls wHooksNetFail 3 initState0).1.netCalls =
      (if (hookRes wHooksNetFail.physInit).isOk = true ∧ wHooksNetFail.netInit.isSome
        then 1 else 0) ∧
    (initCalls wHooksNetFail 3 initState0).1.log =
      ((if wHooksNetFail.physInit.isSome then [Hook.phys] else []) ++
        (if (hookRes wHooksNetFail.physInit).isOk = true ∧ wHooksNetFail.netInit.isSome
          then [Hook.net] else [])) ∧
    ((initCalls wHooksNetFail 3 initState0).1.ready = true ↔
      ((hookRes wHooksNetFail.physInit).isOk = true ∧
        (hookRes wHooksNetFail.netInit).isOk = true)) ∧
    (∀ e, (init wHooksNetFail initState0).2 = Except.error e →
      (initCalls wHooksNetFail 3 initState0).1.ready = false ∧
        ∀ o ∈ (initCalls wHooksNetFail 3 initState0).2, o = Except.error e) :=
  init_single_flight wHooksNetFail 3 (by norm_num)

/-- C8: registerSystem fails exactly when the bucket of the phase of the new
system already holds a system of the same name (the same name in another
phase does not conflict, since only that one bucket is inspected); a failing
call leaves the registry unchanged, and registerSystems registers elements
in sequence with no rollback: when one element fails, the registry keeps
exactly the elements registered before it. -/
theorem registerSystem_duplicate :
    (∀ (r : Registry) (s : System),
      (∃ e, registerSystem r s = Except.error e) ↔ ∃ t ∈ r s.phase, t.name = s.name) ∧
    (∀ (r : Registry) (l1 : List System) (s : System) (l2 : List System) (r1 : Registry),
      registerSystems r l1 = (r1, none) → (∃ e, registerSystem r1 s = Except.error e) →
        registerSystems r (l1 ++ s :: l2) =
          (r1, some ("System name already registered: " ++ s.name))) := by
  have herr : ∀ (r : Registry) (s : System),
      (∃ e, registerSystem r s = Except.error e) ↔ ∃ t ∈ r s.phase, t.name = s.name := by
    intro r s
    unfold registerSystem
    by_cases h : (r s.phase).any (fun t => t.name == s.name) = true
    · rw [if_pos h]
      simp only [List.any_eq_true, beq_iff_eq] at h
      simpa using h
    · rw [if_neg h]
      simp only [List.any_eq_true, beq_iff_eq] at h
      simpa using h
  refine ⟨herr, ?_⟩
  intro r l1
  induction l1 generalizing r with
  | nil =>
    intro s l2 r1 h0 hf
    obtain ⟨e, he⟩ := hf
    have hr : r = r1 := by
      simpa [registerSystems] using h0
    subst hr
    have hmsg : e = "System name already registered: " ++ s.name := by
      unfold registerSystem at he
      by_cases h : (r s.phase).any (fun t => t.name == s.name) = true
      · rw [if_pos h] at he
        injection he with h2
        exact h2.symm
      · rw [if_neg h] at he
        cases he
    simp only [List.nil_append]
    show registerSystems r (s :: l2) = (r, some _)
    unfold registerSystems
    rw [he, hmsg]
  | cons a tl ih =>
    intro s l2 r1 h0 hf
    cases hra : registerSystem r a with
    | error e =>
      rw [show registerSystems r (a :: tl) = (r, some e) by
        simp [registerSystems, hra]] at h0
      cases h0
      -- the pair equality forces some e = none, impossible
    | ok r2 =>
      have h0' : registerSystems r2 tl = (r1, none) := by
        rw [show registerSystems r (a :: tl) = registerSystems r2 tl by
          simp [registerSystems, hra]] at h0
        exact h0
      have hstep : registerSystems r ((a :: tl) ++ s :: l2) =
          registerSystems r2 (tl ++ s :: l2) := by
        show registerSystems r (a :: (tl ++ s :: l2)) = _
        simp [registerSystems, hra]
      rw [hstep]
      exact ih r2 s l2 r1 h0' hf

theorem registerSystem_duplicate_witness :
    ((∃ e, registerSystem
        (registerSystems emptyRegistry [System.mk "a" Phase.update none]).1
        (System.mk "a" Phase.update (some 2)) = Except.error e) ↔
      ∃ t ∈ (registerSystems emptyRegistry [System.mk "a" Phase.update none]).1
          (System.mk "a" Phase.update (some 2)).phase,
        t.name = (System.mk "a" Phase.update (some 2)).name) ∧
    registerSystems emptyRegistry
        ([System.mk "a" Phase.update none] ++
          System.mk "a" Phase.update (some 2) :: [System.mk "b" Phase.update none]) =
      ((registerSystems emptyRegistry [System.mk "a" Phase.update none]).1,
        some ("System name already registered: " ++
          (System.mk "a" Phase.update (some 2)).name)) :=
  ⟨registerSystem_duplicate.1 _ _,
    registerSystem_duplicate.2 emptyRegistry [System.mk "a" Phase.update none]
      (System.mk "a" Phase.update (some 2)) [System.mk "b" Phase.update none]
      (registerSystems emptyRegistry [System.mk "a" Phase.update none]).1 rfl
      ⟨"System name already registered: a", rfl⟩⟩

instance : IsTotal System sysLe :=
  ⟨fun a b => by
    unfold sysLe
    rcases lt_trichotomy (sysOrder a) (sysOrder b) with h | h | h
    · exact Or.inl (Or.inl h)
    · rcases le_total a.name b.name with hn | hn
      · exact Or.inl (Or.inr ⟨h, hn⟩)
      · exact Or.inr (Or.inr ⟨h.symm, hn⟩)
    · exact Or.inr (Or.inl h)⟩

instance : IsTrans System sysLe :=
  ⟨fun a b c hab hbc => by
    unfold sysLe at hab hbc ⊢
    rcases hab with h1 | h1 <;> rcases hbc with h2 | h2
    · exact Or.inl (h1.trans h2)
    · exact Or.inl (h2.1 ▸ h1)
    · exact Or.inl (h1.1 ▸ h2)
    · exact Or.inr ⟨h1.1.trans h2.1, h1.2.trans h2.2⟩⟩

theorem sortSystems_sorted (l : List System) : List.Sorted sysLe (sortSystems l) :=
  List.sorted_insertionSort sysLe l

theorem sortSystems_perm (l : List System) : (sortSystems l).Perm l :=
  List.perm_insertionSort sysLe l

theorem sortSystems_names_nodup {l : List System} (h : (l.map System.name).Nodup) :
    ((sortSystems l).map System.name).Nodup :=
  (((sortSystems_perm l).map System.name).nodup_iff).mpr h

theorem registerSystem_ok_spec {r : Registry} {s : System} {r2 : Registry}
    (h : registerSystem r s = Except.ok r2) :
    r2 s.phase = sortSystems ((r s.phase).concat s) ∧
      (∀ p, p ≠ s.phase → r2 p = r p) ∧
      ∀ t ∈ r s.phase, t.name ≠ s.name := by
  unfold registerSystem at h
  by_cases hc : (r s.phase).any (fun t => t.name == s.name) = true
  · rw [if_pos hc] at h
    cases h
  · rw [if_neg hc] at h
    injection h with h2
    subst h2
    refine ⟨by simp, fun p hp => by simp [hp], ?_⟩
    intro t ht he
    exact hc (List.any_eq_true.mpr ⟨t, ht, beq_iff_eq.mpr he⟩)

theorem registerSystems_ok_spec :
    ∀ (L : List System) (r0 r1 : Registry), registerSystems r0 L = (r1, none) →
      (∀ p, List.Sorted sysLe (r0 p)) →
      (∀ p, ((r0 p).map System.name).Nodup) →
      ∀ p, List.Sorted sysLe (r1 p) ∧ ((r1 p).map System.name).Nodup ∧
        (r1 p).Perm (r0 p ++ L.filter (fun t => t.phase == p)) := by
  intro L
  induction L with
  | nil =>
    intro r0 r1 h hs hn p
    have hr : r0 = r1 := by simpa [registerSystems] using h
    subst hr
    exact ⟨hs p, hn p, by simp⟩
  | cons a tl ih =>
    intro r0 r1 h hs hn p
    cases hra : registerSystem r0 a with
    | error e =>
      rw [show registerSystems r0 (a :: tl) = (r0, some e) by
        simp [registerSystems, hra]] at h
      cases h
    | ok r2 =>
      have h' : registerSystems r2 tl = (r1, none) := by
        rw [show registerSystems r0 (a :: tl) = registerSystems r2 tl by
          simp [registerSystems, hra]] at h
        exact h
      obtain ⟨hb, hother, hfree⟩ := registerSystem_ok_spec hra
      have hs2 : ∀ p, List.Sorted sysLe (r2 p) := by
        intro p
        by_cases hp : p = a.phase
        · rw [hp, hb]
          exact sortSystems_sorted _
        · rw [hother p hp]
          exact hs p
      have hn2 : ∀ p, ((r2 p).map System.name).Nodup := by
        intro p
        by_cases hp : p = a.phase
        · rw [hp, hb]
          refine sortSystems_names_nodup ?_
          rw [List.concat_eq_append, List.map_append]
          refine (hn a.phase).append (List.nodup_singleton _) ?_
          intro x hx1 hx2
          obtain ⟨t, ht, rfl⟩ := List.mem_map.mp hx1
          simp only [List.map_cons, List.map_nil, List.mem_singleton] at hx2
          exact hfree t ht hx2
        · rw [hother p hp]
          exact hn p
      obtain ⟨h1, h2, h3⟩ := ih r2 r1 h' hs2 hn2 p
      refine ⟨h1, h2, ?_⟩
      by_cases hp : a.phase = p
      · subst hp
        have hb2 : (r2 a.phase).Perm (r0 a.phase ++ [a]) := by
          rw [hb, List.concat_eq_append]
          exact sortSystems_perm _
        have hfa : (a :: tl).filter (fun t => t.phase == a.phase) =
            a :: tl.filter (fun t => t.phase == a.phase) := by
          rw [List.filter_cons_of_pos (by simp)]
        rw [hfa]
        refine h3.trans ((hb2.append_right _).trans ?_)
        rw [List.append_assoc]
        exact List.Perm.refl _
      · have hfa : (a :: tl).filter (fun t => t.phase == p) =
            tl.filter (fun t => t.phase == p) := by
          rw [List.filter_cons_of_neg (by simp [hp])]
        rw [hfa, ← hother p (fun he => hp he.symm)]
        exact h3

theorem sorted_nodup_perm_eq {l1 l2 : List System} (h : l1.Perm l2)
    (s1 : List.Sorted sysLe l1) (s2 : List.Sorted sysLe l2)
    (n1 : (l1.map System.name).Nodup) : l1 = l2 := by
  have n2 : (l2.map System.name).Nodup := ((h.map System.name).nodup_iff).mp n1
  have hpair : ∀ {l : List System}, (l.map System.name).Nodup →
      List.Pairwise (fun a b => a.name ≠ b.name) l := by
    intro l hl
    rw [List.Nodup, List.pairwise_map] at hl
    exact hl
  haveI : IsAntisymm System (fun a b => sysLe a b ∧ a.name ≠ b.name) := by
    constructor
    intro a b h1 h2
    exfalso
    apply h1.2
    rcases h1.1 with ho1 | ho1 <;> rcases h2.1 with ho2 | ho2
    · exact absurd (ho1.trans ho2) (lt_irrefl _)
    · exact absurd ho1 (ho2.1 ▸ lt_irrefl _)
    · exact absurd ho2 (ho1.1 ▸ lt_irrefl _)
    · exact le_antisymm ho1.2 ho2.2
  exact List.eq_of_perm_of_sorted h (s1.and (hpair n1)) (s2.and (hpair n2))

/-- C9: for every phase, after any sequence of successful registrations, the
bucket of the phase is sorted by the total order (order ascending, then name
ascending lexicographically) with a missing order read as 0, holds exactly
the registered systems of that phase, and the resulting execution order is
independent of registration order: two successful registration sequences
that are permutations of one another produce identical buckets. -/
theorem registration_order_deterministic (L1 L2 : List System) (r1 r2 : Registry)
    (hperm : L1.Perm L2) (h1 : registerSystems emptyRegistry L1 = (r1, none))
    (h2 : registerSystems emptyRegistry L2 = (r2, none)) :
    ∀ p, List.Sorted sysLe (r1 p) ∧
      (r1 p).Perm (L1.filter (fun t => t.phase == p)) ∧ r1 p = r2 p := by
  intro p
  have hs0 : ∀ p, List.Sorted sysLe (emptyRegistry p) := by
    intro p
    simp [emptyRegistry]
  have hn0 : ∀ p, ((emptyRegistry p).map System.name).Nodup := by
    intro p
    simp [emptyRegistry]
  obtain ⟨sa1, na1, pa1⟩ := registerSystems_ok_spec L1 emptyRegistry r1 h1 hs0 hn0 p
  obtain ⟨sa2, na2, pa2⟩ := registerSystems_ok_spec L2 emptyRegistry r2 h2 hs0 hn0 p
  have pa1' : (r1 p).Perm (L1.filter (fun t => t.phase == p)) := by
    simpa [emptyRegistry] using pa1
  have pa2' : (r2 p).Perm (L2.filter (fun t => t.phase == p)) := by
    simpa [emptyRegistry] using pa2
  refine ⟨sa1, pa1', ?_⟩
  have hf : (L1.filter (fun t => t.phase == p)).Perm (L2.filter (fun t => t.phase == p)) :=
    hperm.filter _
  exact sorted_nodup_perm_eq (pa1'.trans (hf.trans pa2'.symm)) sa1 sa2 na1

theorem registration_order_deterministic_witness :
    List.Sorted sysLe
        ((registerSystems emptyRegistry [System.mk "b" Phase.update (some 0),
          System.mk "a" Phase.update (some 0),
          System.mk "c" Phase.update (some 1)]).1 Phase.update) ∧
      ((registerSystems emptyRegistry [System.mk "b" Phase.update (some 0),
          System.mk "a" Phase.update (some 0),
          System.mk "c" Phase.update (some 1)]).1 Phase.update).Perm
        (([System.mk "b" Phase.update (some 0), System.mk "a" Phase.update (some 0),
          System.mk "c" Phase.update (some 1)]).filter
            (fun t => t.phase == Phase.update)) ∧
      (registerSystems emptyRegistry [System.mk "b" Phase.update (some 0),
          System.mk "a" Phase.update (some 0),
          System.mk "c" Phase.update (some 1)]).1 Phase.update =
        (registerSystems emptyRegistry [System.mk "c" Phase.update (some 1),
          System.mk "a" Phase.update (some 0),
          System.mk "b" Phase.update (some 0)]).1 Phase.update :=
  registration_order_deterministic
    [System.mk "b" Phase.update (some 0), System.mk "a" Phase.update (some 0),
      System.mk "c" Phase.update (some 1)]
    [System.mk "c" Phase.update (some 1), System.mk "a" Phase.update (some 0),
      System.mk "b" Phase.update (some 0)]
    (registerSystems emptyRegistry [System.mk "b" Phase.update (some 0),
      System.mk "a" Phase.update (some 0), System.mk "c" Phase.update (some 1)]).1
    (registerSystems emptyRegistry [System.mk "c" Phase.update (some 1),
      System.mk "a" Phase.update (some 0), System.mk "b" Phase.update (some 0)]).1
    (by decide) (by with_unfolding_all rfl) (by with_unfolding_all rfl) Phase.update

/-- C1: with fixedDt = 0.1 and maxFrameDt = 1 (other options default),
construction yields exactly the configuration wCfg, and after init a single
advance(0.35) invokes each registered preFrame system exactly once, each
fixed and each postPhysicsFixed system exactly three times, each update,
late and renderApply system exactly once; physics.step is called exactly
three times, each with dt = 0.1; and tick increases by exactly 3. -/
theorem frame_0_35_counts {σ : Type} (r : Registry) (st : σ)
    (hnd : ∀ p, ((r p).map System.name).Nodup) :
    mkEngine ⟨some (JsNum.num (1 / 10)), none, some (JsNum.num 1), none⟩ =
      Except.ok wCfg ∧
    ∃ s2 tr,
      frame wCfg r { accumulator := 0, tick := 0, now := 0, ready := true, store := st }
          (JsNum.num (7 / 20)) = FrameOut.ran s2 tr ∧
      s2.tick = 3 ∧
      tr.physicsSteps = [1 / 10, 1 / 10, 1 / 10] ∧
      (∀ sys ∈ r Phase.preFrame, countEvents tr.events Phase.preFrame sys.name = 1) ∧
      (∀ sys ∈ r Phase.fixed, countEvents tr.events Phase.fixed sys.name = 3) ∧
      (∀ sys ∈ r Phase.postPhysicsFixed,
        countEvents tr.events Phase.postPhysicsFixed sys.name = 3) ∧
      (∀ sys ∈ r Phase.update, countEvents tr.events Phase.update sys.name = 1) ∧
      (∀ sys ∈ r Phase.late, countEvents tr.events Phase.late sys.name = 1) ∧
      (∀ sys ∈ r Phase.renderApply,
        countEvents tr.events Phase.renderApply sys.name = 1) := by
  constructor
  · norm_num [mkEngine, EngineConfig.fdOf, EngineConfig.mssOf, EngineConfig.mfdOf,
      EngineConfig.tsOf, assertPositiveOk, assertIntegerAtLeastOk, assertNonNegativeOk,
      JsNum.toQ, wCfg, Int.toNat_ofNat]
    rfl
  refine ⟨(frameBody wCfg r
      { accumulator := 0, tick := 0, now := 0, ready := true, store := st } (7 / 20)).1,
    (frameBody wCfg r
      { accumulator := 0, tick := 0, now := 0, ready := true, store := st } (7 / 20)).2,
    frame_eq_ran wCfg r rfl (by norm_num), ?_, ?_, ?_, ?_, ?_, ?_, ?_, ?_⟩
  · rw [frameBody_state_eq]
    norm_num [frameLoop, clampDt, fixedLoop, wCfg]
  · rw [frameBody_physicsSteps]
    norm_num [frameLoop, clampDt, fixedLoop, wCfg]
  · intro sys hsys
    rw [frameBody_countEvents, if_neg (by decide),
      length_filter_name_eq_one (hnd Phase.preFrame) hsys]
  · intro sys hsys
    rw [frameBody_countEvents, if_pos (Or.inl rfl),
      length_filter_name_eq_one (hnd Phase.fixed) hsys]
    norm_num [frameLoop, clampDt, fixedLoop, wCfg]
  · intro sys hsys
    rw [frameBody_countEvents, if_pos (Or.inr rfl),
      length_filter_name_eq_one (hnd Phase.postPhysicsFixed) hsys]
    norm_num [frameLoop, clampDt, fixedLoop, wCfg]
  · intro sys hsys
    rw [frameBody_countEvents, if_neg (by decide),
      length_filter_name_eq_one (hnd Phase.update) hsys]
  · intro sys hsys
    rw [frameBody_countEvents, if_neg (by decide),
      length_filter_name_eq_one (hnd Phase.late) hsys]
  · intro sys hsys
    rw [frameBody_countEvents, if_neg (by decide),
      length_filter_name_eq_one (hnd Phase.renderApply) hsys]

theorem frame_0_35_counts_witness :
    mkEngine ⟨some (JsNum.num (1 / 10)), none, some (JsNum.num 1), none⟩ =
      Except.ok wCfg ∧
    ∃ s2 tr,
      frame wCfg wReg { accumulator := 0, tick := 0, now := 0, ready := true, store := () }
          (JsNum.num (7 / 20)) = FrameOut.ran s2 tr ∧
      s2.tick = 3 ∧
      tr.physicsSteps = [1 / 10, 1 / 10, 1 / 10] ∧
      (∀ sys ∈ wReg Phase.preFrame, countEvents tr.events Phase.preFrame sys.name = 1) ∧
      (∀ sys ∈ wReg Phase.fixed, countEvents tr.events Phase.fixed sys.name = 3) ∧
      (∀ sys ∈ wReg Phase.postPhysicsFixed,
        countEvents tr.events Phase.postPhysicsFixed sys.name = 3) ∧
      (∀ sys ∈ wReg Phase.update, countEvents tr.events Phase.update sys.name = 1) ∧
      (∀ sys ∈ wReg Phase.late, countEvents tr.events Phase.late sys.name = 1) ∧
      (∀ sys ∈ wReg Phase.renderApply,
        countEvents tr.events Phase.renderApply sys.name = 1) :=
  frame_0_35_counts wReg () (by intro p; cases p <;> decide)

/-- The configuration literally named by the original claim for the clamped
alpha scenario: fixedDt = 0.1, maxSubSteps = 2 and the remaining options at
their defaults, in particular maxFrameDt = 0.25. -/
def cfgC3 : EngineCfg :=
  { fixedDt := 1 / 10, maxSubSteps := 2, maxFrameDt := 1 / 4, timeScale := 1 }

/-- C3 counterexample: with the configuration exactly as the claim states it
(maxFrameDt left at its default 0.25), advance(0.35) is clamped to dt = 0.25,
the two sub-steps leave only 0.05 in the accumulator, and the frame yields
alpha = 1/2 and droppedTime = 0 — refuting alpha = 1 and droppedTime > 0. -/
theorem frame_0_35_default_maxFrameDt_no_drop :
    frame cfgC3 wReg wState (JsNum.num (7 / 20)) =
      FrameOut.ran (frameBody cfgC3 wReg wState (7 / 20)).1
        (frameBody cfgC3 wReg wState (7 / 20)).2 ∧
    (frameBody cfgC3 wReg wState (7 / 20)).2.alpha = 1 / 2 ∧
    (frameBody cfgC3 wReg wState (7 / 20)).2.droppedTime = 0 ∧
    ¬ ((frameBody cfgC3 wReg wState (7 / 20)).2.alpha = 1 ∧
      0 < (frameBody cfgC3 wReg wState (7 / 20)).2.droppedTime) := by
  have halpha : (frameBody cfgC3 wReg wState (7 / 20)).2.alpha = 1 / 2 := by
    rw [frameBody_alpha]
    unfold frameAlpha frameAcc
    norm_num [frameLoop, clampDt, fixedLoop, overloaded, cfgC3, wState]
  have hdrop : (frameBody cfgC3 wReg wState (7 / 20)).2.droppedTime = 0 := by
    rw [frameBody_droppedTime]
    unfold frameDropped
    norm_num [frameLoop, clampDt, fixedLoop, overloaded, cfgC3, wState]
  refine ⟨frame_eq_ran cfgC3 wReg rfl (by norm_num), halpha, hdrop, ?_⟩
  rintro ⟨h1, h2⟩
  rw [hdrop] at h2
  exact lt_irrefl 0 h2

/-- C3 amended: the same scenario with maxFrameDt = 1 (the value the
repository test uses) instead of the default 0.25: advance(0.35) hits
maxSubSteps = 2, yields alpha = 1 (clamped, though the raw ratio before
clamping exceeds 1) and droppedTime = 0.05 > 0, and the renderApply system
receives alpha 1 as its dt argument and in its context, with droppedTime
0.05 delivered in the same context. -/
theorem frame_0_35_maxFrameDt1_clamped_alpha :
    frame wCfgOverload wReg wState (JsNum.num (7 / 20)) =
      FrameOut.ran (frameBody wCfgOverload wReg wState (7 / 20)).1
        (frameBody wCfgOverload wReg wState (7 / 20)).2 ∧
    (frameBody wCfgOverload wReg wState (7 / 20)).2.alpha = 1 ∧
    (frameBody wCfgOverload wReg wState (7 / 20)).2.droppedTime = 1 / 20 ∧
    1 < (frameLoop wCfgOverload wReg wState (7 / 20)).acc / wCfgOverload.fixedDt ∧
    (∃ e ∈ (frameBody wCfgOverload wReg wState (7 / 20)).2.events,
      e.phase = Phase.renderApply ∧ e.arg = 1 ∧ e.ctx.alpha = some 1 ∧
        e.ctx.droppedTime = some (1 / 20)) := by
  have halpha : frameAlpha wCfgOverload wReg wState (7 / 20) = 1 := by
    unfold frameAlpha frameAcc
    norm_num [frameLoop, clampDt, fixedLoop, overloaded, wCfgOverload, wState]
  have hdrop : frameDropped wCfgOverload wReg wState (7 / 20) = 1 / 20 := by
    unfold frameDropped
    norm_num [frameLoop, clampDt, fixedLoop, overloaded, wCfgOverload, wState]
  refine ⟨frame_eq_ran wCfgOverload wReg rfl (by norm_num), ?_, ?_, ?_, ?_⟩
  · rw [frameBody_alpha]
    exact halpha
  · rw [frameBody_droppedTime]
    exact hdrop
  · norm_num [frameLoop, clampDt, fixedLoop, wCfgOverload, wState]
  · refine ⟨Event.mk "probe" Phase.renderApply (frameAlpha wCfgOverload wReg wState (7 / 20))
      (frameRenCtx wCfgOverload wReg wState (7 / 20)), ?_, rfl, halpha, ?_, ?_⟩
    · rw [frameBody_events]
      exact List.mem_append_right _
        (runBucket_mem_intro (show _ ∈ wReg Phase.renderApply from List.mem_singleton.mpr rfl))
    · show some (frameAlpha wCfgOverload wReg wState (7 / 20)) = some 1
      rw [halpha]
    · show some (frameDropped wCfgOverload wReg wState (7 / 20)) = some (1 / 20)
      rw [hdrop]

/-- C5: after the scheduler is Ready, frame throws exactly on a non-finite or
negative argument; before Ready every call is a silent no-op; and in every
call that does not run the algorithm (either case) no system is invoked and
tick, now, accumulator and the keyed store are all left unchanged (the error
and notReady outcomes carry the input state untouched). -/
theorem frame_error_iff {σ : Type} (cfg : EngineCfg) (r : Registry) (s : EngState σ)
    (v : JsNum) :
    (frame cfg r s v = FrameOut.error s ↔
      (s.ready = true ∧ ¬ ∃ q, v = JsNum.num q ∧ 0 ≤ q)) ∧
    (frame cfg r s v = FrameOut.notReady s ↔ s.ready = false) ∧
    ((frame cfg r s v).traceOf = none ↔
      (s.ready = false ∨ ¬ ∃ q, v = JsNum.num q ∧ 0 ≤ q)) := by
  by_cases hs : s.ready = true
  · by_cases hv : ∃ q, v = JsNum.num q ∧ 0 ≤ q
    · obtain ⟨q, rfl, hq⟩ := hv
      rw [frame_eq_ran cfg r hs hq]
      refine ⟨?_, ?_, ?_⟩ <;> simp [hs, FrameOut.traceOf, hq]
    · rw [frame_eq_error cfg r hs hv]
      refine ⟨?_, ?_, ?_⟩ <;> simp [hs, FrameOut.traceOf, hv]
  · have hs0 : s.ready = false := by simpa using hs
    rw [frame_eq_notReady cfg r v hs0]
    refine ⟨?_, ?_, ?_⟩ <;> simp [hs0, FrameOut.traceOf]

end Eris
